import Mathlib

/-!
Shallow embedding of `dbt/adapters/sqlite/connections.py` (the single source
file of the dbt-sqlite adapter).  Python strings are modelled as `List Char`,
the `sqlite3` engine as a record of fallible operations, Python exceptions as
an explicit error type, and the connection object as a structure that the
operations thread explicitly.
-/

set_option autoImplicit false

namespace DbtSqlite

/-- Python strings, modelled as lists of characters. -/
abbrev Str := List Char

/-- Python `s.split(sep)` for a one-character separator: splits at every
occurrence of `sep`, keeping empty pieces; the empty string yields `[""]`. -/
def splitOn (sep : Char) : Str → List Str
  | [] => [[]]
  | c :: rest =>
    match splitOn sep rest with
    | [] => [[]]
    | piece :: pieces =>
      if c = sep then [] :: piece :: pieces
      else (c :: piece) :: pieces

/-- Python `s.split(sep, 1)` followed by unpacking into two variables:
`none` models the `ValueError` raised when `sep` does not occur (the split
returns a one-element list that cannot be unpacked into a pair). -/
def splitFirst (sep : Char) : Str → Option (Str × Str)
  | [] => none
  | c :: rest =>
    if c = sep then some ([], rest)
    else
      match splitFirst sep rest with
      | none => none
      | some q => some (c :: q.1, q.2)

/-- A Python `dict` with string keys and values, as an association list with
distinct keys in insertion order. -/
abbrev Dict := List (Str × Str)

/-- Python `d[k] = v`: overwrite in place when the key is present (keeping
its position), append otherwise. -/
def dictInsert (k v : Str) : Dict → Dict
  | [] => [(k, v)]
  | q :: rest => if q.1 = k then (k, v) :: rest else q :: dictInsert k v rest

/-- Python `d[k]` / `k in d`: first (only) binding of the key. -/
def dictLookup (k : Str) : Dict → Option Str
  | [] => none
  | q :: rest => if q.1 = k then some q.2 else dictLookup k rest

/-- The Python exceptions that can cross the boundary of the embedded
operations. `typeErrorRaiseStr` models what `raise str(e)` actually does in
Python 3: raising a `str` raises `TypeError: exceptions must derive from
BaseException`; the carried message is the string the code tried to raise. -/
inductive PyExn where
  | valueError
  | failedToConnect (msg : Str)
  | typeErrorRaiseStr (msg : Str)
  | attributeError
  | databaseException (msg : Str)
  | runtimeException (msg : Str)
  deriving DecidableEq, Repr

/-- `dbt.contracts.connection.ConnectionState`; the code compares and assigns
the string values "open" and "fail". -/
inductive ConnState where
  | start
  | opened
  | fail
  | closed
  deriving DecidableEq, Repr

/-- The slice of a dbt `Connection` object the adapter reads and mutates.
`credentials` is the raw `schema_paths` string of `SQLiteCredentials`. -/
structure Connection (H : Type) where
  state : ConnState
  handle : Option H
  credentials : Str
  deriving DecidableEq, Repr

/-- The `sqlite3` engine as seen by the adapter: `connect path` models
`sqlite3.connect(path)`, `attach h path schema` models
`cursor.execute(f"attach \x7bpath\x7d as \x7bschema\x7d")` on a cursor of
`h`; `.error msg` models an engine-raised `sqlite3.Error` with message
`msg`. -/
structure Engine (H : Type) where
  connect : Str → Except Str H
  attach : H → Str → Str → Except Str Unit

/-- The schema name every configuration must contain. -/
def mainKey : Str := "main".toList

/-- Helper for `parseSchemaPaths`: the `for path_entry in ...split(";")`
loop body, `schema, path = path_entry.split("=", 1)` then
`schema_paths[schema] = path`. -/
def parseEntries : List Str → Dict → Except PyExn Dict
  | [], d => .ok d
  | e :: rest, d =>
    match splitFirst '=' e with
    | none => .error .valueError
    | some q => parseEntries rest (dictInsert q.1 q.2 d)

/-- The schema-mapping parse step of `SQLiteConnectionManager.open`:
split the raw `schema_paths` string on `;`, split each entry on the first
`=`, build a dict.  Runs before the `try` block, so its `ValueError`
propagates to the caller untouched. -/
def parseSchemaPaths (s : Str) : Except PyExn Dict :=
  parseEntries (splitOn ';' s) []

/-- The message of the `FailedToConnectException` raised when no schema is
named `main` (the source quotes the word `main`; the quotes are elided
here). -/
def missingMainMsg : Str := "at least one schema must be called main".toList

/-- The attach loop of `open`: for every schema other than `main`, execute
an attach statement; the first engine error aborts the loop. -/
def attachAll {H : Type} (eng : Engine H) (h : H) : List (Str × Str) → Except Str Unit
  | [] => .ok ()
  | q :: rest =>
    match eng.attach h q.2 q.1 with
    | .error m => .error m
    | .ok _ => attachAll eng h rest

/-- `SQLiteConnectionManager.open`.  Returns the connection object as left by
the call together with either the returned connection or the exception that
escaped.  Faithful control flow: an already-open connection short-circuits;
the parse runs outside the `try`, so its `ValueError` escapes raw; inside the
`try`, a missing `main` raises `FailedToConnectException`, which is not a
`sqlite3.Error` and so is caught by the final `except Exception` block, whose
`raise str(e)` raises a `TypeError` and leaves the connection untouched;
`sqlite3.Error` from connect or attach clears the handle, sets state `fail`
and raises `FailedToConnectException(str(e))`. -/
def openConnection {H : Type} (eng : Engine H) (conn : Connection H) :
    Connection H × Except PyExn (Connection H) :=
  if conn.state = ConnState.opened then
    (conn, .ok conn)
  else
    match parseSchemaPaths conn.credentials with
    | .error e => (conn, .error e)
    | .ok sp =>
      match dictLookup mainKey sp with
      | none => (conn, .error (.typeErrorRaiseStr missingMainMsg))
      | some mainPath =>
        match eng.connect mainPath with
        | .error m =>
          ({ conn with handle := none, state := ConnState.fail },
            .error (.failedToConnect m))
        | .ok h =>
          match attachAll eng h (sp.filter (fun q => decide (q.1 ≠ mainKey))) with
          | .error m =>
            ({ conn with handle := none, state := ConnState.fail },
              .error (.failedToConnect m))
          | .ok _ =>
            let c := { conn with state := ConnState.opened, handle := some h }
            (c, .ok c)

/-- `SQLiteConnectionManager.cancel`: `connection.handle.interrupt()` inside
`try ... except sqlite3.Error: pass`.  `interrupt` is the handle method; when
the handle is `None`, the attribute access itself raises `AttributeError`,
which is not a `sqlite3.Error` and therefore escapes. -/
def cancel {H : Type} (interrupt : H → Except Str Unit) (conn : Connection H) :
    Except PyExn Unit :=
  match conn.handle with
  | none => .error PyExn.attributeError
  | some h =>
    match interrupt h with
    | .error _ => .ok ()
    | .ok _ => .ok ()

/-- How the body wrapped by `exception_handler` can finish: normally, with a
`sqlite3.DatabaseError`, or with any other exception. -/
inductive ExecOutcome (V : Type) where
  | ok (v : V)
  | dbError (msg : Str)
  | otherError (msg : Str)
  deriving DecidableEq, Repr

/-- Observable side effects inside `exception_handler`, in order. -/
inductive Event where
  | released
  | logged (msg : Str)
  deriving DecidableEq, Repr

/-- The log line of the `sqlite3.DatabaseError` branch. -/
def dbErrLogMsg (m : Str) : Str := "sqlite3 error: ".toList ++ m

/-- The first log line of the generic-exception branch. -/
def sqlLogMsg (sql : Str) : Str := "Error running SQL: ".toList ++ sql

/-- The second log line of the generic-exception branch. -/
def rollbackMsg : Str := "Rolling back transaction.".toList

/-- `SQLiteConnectionManager.exception_handler(sql)`: the scoped region
around one SQL execution.  Returns the ordered side effects (`self.release()`
and log lines) together with the result: the body's value on normal
completion, `DatabaseException(str(e))` after a `sqlite3.DatabaseError`
(release first, then log), `RuntimeException(str(e))` after any other
exception (two log lines, then release). -/
def exceptionHandler {V : Type} (sql : Str) :
    ExecOutcome V → List Event × Except PyExn V
  | .ok v => ([], .ok v)
  | .dbError m =>
    ([Event.released, Event.logged (dbErrLogMsg m)],
      .error (.databaseException m))
  | .otherError m =>
    ([Event.logged (sqlLogMsg sql), Event.logged rollbackMsg, Event.released],
      .error (.runtimeException m))

/-- Python truthiness of the `bindings` argument (`Optional`): `None` and an
empty collection are falsy. -/
def pyTruthy {B : Type} : Option (List B) → Bool
  | none => false
  | some l => !l.isEmpty

/-- `SQLiteConnectionManager.add_query`: substitute an empty mapping when
`bindings` is falsy (`if not bindings: bindings = \x7b\x7d`), then delegate
every argument to `super().add_query`, returning its result unchanged. -/
def add_query {B R : Type} (superAddQuery : Str → Bool → List B → Bool → R)
    (sql : Str) (auto_begin : Bool) (bindings : Option (List B))
    (abridge_sql_log : Bool) : R :=
  let b := if pyTruthy bindings then bindings.getD [] else []
  superAddQuery sql auto_begin b abridge_sql_log

/-! Concrete fixtures used by the closed evaluations and the witnesses. -/

/-- An engine whose connect and attach always succeed, with trivial handles. -/
def unitEngine : Engine Unit :=
  { connect := fun _ => .ok (), attach := fun _ _ _ => .ok () }

/-- An engine whose connect always fails with a fixed `sqlite3.Error`
message. -/
def failEngine : Engine Unit :=
  { connect := fun _ => .error "unable to open database file".toList,
    attach := fun _ _ _ => .ok () }

/-- An engine that records, as the handle, the path passed to connect. -/
def recordEngine : Engine Str :=
  { connect := fun p => .ok p, attach := fun _ _ _ => .ok () }

/-- An engine that makes the attach of one schema observable: connect
records its path as the handle, and the attach issued for schema `n` fails
carrying the path it was called with (all other attaches succeed). -/
def probeEngine (n : Str) : Engine Str :=
  { connect := fun p => .ok p,
    attach := fun _ path schema => if schema = n then .error path else .ok () }

/-- Concrete configuration with a duplicated schema name in non-final
position: `a=1;a=2;main=m.db`. -/
def dupConfig : List (Str × Str) :=
  [("a".toList, "1".toList), ("a".toList, "2".toList),
    ("main".toList, "m.db".toList)]

/-- A fresh connection (state `init`, no handle) over a given
`schema_paths` string. -/
def mkConn (s : Str) : Connection Unit :=
  { state := ConnState.start, handle := none, credentials := s }

/-- A connection already in state `open`, holding a handle. -/
def openedConn : Connection Unit :=
  { state := ConnState.opened, handle := some (), credentials := "main=a.db".toList }

/-- Build a `schema_paths` string `n1=p1;n2=p2;...` from declared
(name, path) pairs; inverse direction of the parse, used to state the
round-trip properties. -/
def joinEntries : List (Str × Str) → Str
  | [] => []
  | [q] => q.1 ++ '=' :: q.2
  | q :: q' :: rest => q.1 ++ '=' :: q.2 ++ ';' :: joinEntries (q' :: rest)

/-- The path of the last entry declaring schema `n`, if any. -/
def lastWins (n : Str) : List (Str × Str) → Option Str
  | [] => none
  | q :: rest =>
    match lastWins n rest with
    | some v => some v
    | none => if q.1 = n then some q.2 else none

/-! Theorems settling the claims. -/

/-- C3: when the connection state is already `open`, `open()` returns the
same connection unchanged — same state, same handle — and performs no parse,
connect or attach (the call short-circuits before any of them). -/
theorem open_idempotent_on_opened {H : Type} (eng : Engine H) (conn : Connection H)
    (h : conn.state = ConnState.opened) :
    openConnection eng conn = (conn, Except.ok conn) := by
  simp [openConnection, h]

/-- Witness for C3 at a concrete open connection. -/
theorem open_idempotent_on_opened_witness :
    openedConn.state = ConnState.opened ∧
      openConnection unitEngine openedConn = (openedConn, Except.ok openedConn) :=
  ⟨rfl, open_idempotent_on_opened unitEngine openedConn rfl⟩

/-- C9: `add_query` always forwards the SQL text, the auto-begin flag and the
log-abridgment flag unchanged, passes `bindings.getD []` as bindings (so
absent and empty bindings both become the empty mapping), and returns exactly
what the generic executor returns; in particular a call with absent bindings
equals the same call with an empty mapping. -/
theorem add_query_bindings_normalized {B R : Type}
    (f : Str → Bool → List B → Bool → R) (sql : Str) (auto_begin : Bool)
    (bindings : Option (List B)) (abridge_sql_log : Bool) :
    add_query f sql auto_begin bindings abridge_sql_log
        = f sql auto_begin (bindings.getD []) abridge_sql_log ∧
      add_query f sql auto_begin none abridge_sql_log
        = add_query f sql auto_begin (some []) abridge_sql_log := by
  constructor
  · cases bindings with
    | none => rfl
    | some l => cases l <;> rfl
  · rfl

/-- C7: inside `exception_handler`, a `sqlite3.DatabaseError` leads to a
release followed by a log line and a `DatabaseException` carrying the
original message; any other exception leads to two log lines, a release and
a `RuntimeException` carrying the original message; and the release step
runs exactly on the failure exits (never on normal completion). -/
theorem exceptionHandler_release_and_translate {V : Type} (sql : Str)
    (out : ExecOutcome V) :
    (∀ m : Str,
      exceptionHandler (V := V) sql (ExecOutcome.dbError m)
        = ([Event.released, Event.logged (dbErrLogMsg m)],
            Except.error (PyExn.databaseException m))) ∧
    (∀ m : Str,
      exceptionHandler (V := V) sql (ExecOutcome.otherError m)
        = ([Event.logged (sqlLogMsg sql), Event.logged rollbackMsg, Event.released],
            Except.error (PyExn.runtimeException m))) ∧
    (Event.released ∈ (exceptionHandler sql out).1 ↔
      ∀ v : V, out ≠ ExecOutcome.ok v) := by
  refine ⟨fun m => rfl, fun m => rfl, ?_⟩
  cases out <;> simp [exceptionHandler]

/-- Counterexample for C8: `cancel` on a connection whose handle is absent
raises (`connection.handle.interrupt()` is an attribute access on `None`,
an `AttributeError` that the `except sqlite3.Error` clause does not catch),
contradicting the claim that `cancel` never raises with an absent handle. -/
theorem cancel_absent_handle_raises :
    cancel (fun _ : Unit => Except.ok ()) (mkConn "main=a.db".toList)
      = Except.error PyExn.attributeError := rfl

/-- C8 (amended): whenever the connection's handle is present, `cancel` never
raises: an engine-level error from `interrupt` is swallowed and the call
returns normally, so it is a harmless no-op when nothing is executing. -/
theorem cancel_with_handle_never_raises {H : Type}
    (interrupt : H → Except Str Unit) (conn : Connection H) (h : H)
    (hh : conn.handle = some h) :
    cancel interrupt conn = Except.ok () := by
  simp only [cancel, hh]
  cases interrupt h <;> rfl

/-- Witness for C8 (amended) at a concrete connection whose `interrupt`
raises an engine error: the error is swallowed. -/
theorem cancel_with_handle_never_raises_witness :
    openedConn.handle = some () ∧
      cancel (fun _ : Unit => Except.error "interrupted".toList) openedConn
        = Except.ok () :=
  ⟨rfl, cancel_with_handle_never_raises
    (fun _ : Unit => Except.error "interrupted".toList) openedConn () rfl⟩

/-- C1 evaluated on the code: with `schema_paths = "a=x"` (every entry has
`=`, none is `main`) and a fresh connection, `open()` raises the
`FailedToConnectException` inside its own `try`, the `except Exception`
block catches it and executes `raise str(e)` — which raises `TypeError`,
not a `ConnectionError` — and the connection is left untouched: state stays
`init` (not `fail`). -/
theorem open_missing_main_behavior :
    openConnection unitEngine (mkConn "a=x".toList)
        = (mkConn "a=x".toList,
            Except.error (PyExn.typeErrorRaiseStr missingMainMsg)) ∧
      (openConnection unitEngine (mkConn "a=x".toList)).1.state ≠ ConnState.fail := by
  exact ⟨rfl, by decide⟩

/-- C4 evaluated on the code: the only reachable non-engine exception inside
`open`'s `try` (the `FailedToConnectException` for a missing `main`, here
with `schema_paths = "b=y;c=z"`) is caught by `except Exception`, which does
`raise str(e)`: a `TypeError`, not an `InternalException` (that import is
never used), and the connection state is left `init`, not resolved to
`fail`. -/
theorem open_nonengine_exception_behavior :
    openConnection unitEngine (mkConn "b=y;c=z".toList)
        = (mkConn "b=y;c=z".toList,
            Except.error (PyExn.typeErrorRaiseStr missingMainMsg)) ∧
      (openConnection unitEngine (mkConn "b=y;c=z".toList)).1.state
        = ConnState.start := by
  exact ⟨rfl, rfl⟩

/-- Every failure of the entry loop is the tuple-unpacking `ValueError`. -/
theorem parseEntries_error_eq (l : List Str) (d : Dict) (err : PyExn)
    (h : parseEntries l d = Except.error err) : err = PyExn.valueError := by
  induction l generalizing d with
  | nil => simp [parseEntries] at h
  | cons e rest ih =>
    cases he : splitFirst '=' e with
    | none =>
      simp [parseEntries, he] at h
      exact h.symm
    | some q =>
      simp only [parseEntries, he] at h
      exact ih _ h

/-- The entry loop fails exactly when some entry contains no `=`. -/
theorem parseEntries_error_iff (l : List Str) (d : Dict) :
    parseEntries l d = Except.error PyExn.valueError ↔
      ∃ e ∈ l, splitFirst '=' e = none := by
  induction l generalizing d with
  | nil => simp [parseEntries]
  | cons e rest ih =>
    cases he : splitFirst '=' e with
    | none => simp [parseEntries, he]
    | some q => simp [parseEntries, he, ih]

/-- Counterexample for C5: an entry with an empty name part does not make
parsing fail at all — `"=p;main=m"` parses successfully, binding the empty
name to `"p"` — contradicting the claim that it fails with a `ConfigError`. -/
theorem parse_empty_name_parses_ok :
    parseSchemaPaths "=p;main=m".toList
      = Except.ok [([], "p".toList), ("main".toList, "m".toList)] := rfl

/-- C5 (amended): parsing fails exactly when some entry lacks `=`, and the
failure is the raw tuple-unpacking `ValueError` (there is no `ConfigError`
anywhere); an entry with an empty name part parses fine, because its entry
still contains `=`. -/
theorem parse_fails_iff_missing_eq (s : Str) :
    ((∃ err, parseSchemaPaths s = Except.error err) ↔
      ∃ e ∈ splitOn ';' s, splitFirst '=' e = none) ∧
    ∀ err, parseSchemaPaths s = Except.error err → err = PyExn.valueError := by
  constructor
  · constructor
    · rintro ⟨err, herr⟩
      have := parseEntries_error_eq _ _ _ herr
      subst this
      exact (parseEntries_error_iff _ _).1 herr
    · intro h
      exact ⟨PyExn.valueError, (parseEntries_error_iff _ _).2 h⟩
  · exact fun err => parseEntries_error_eq _ _ err

/-- C2: on a connection not already open, whenever the engine raises during
the primary connect or during any secondary attach, `open()` clears the
handle, sets the state to `fail`, and raises `FailedToConnectException`
wrapping the engine's message. -/
theorem open_engine_error_sets_fail {H : Type} (eng : Engine H)
    (conn : Connection H) (sp : Dict) (mp m : Str)
    (hstate : conn.state ≠ ConnState.opened)
    (hparse : parseSchemaPaths conn.credentials = Except.ok sp)
    (hmain : dictLookup mainKey sp = some mp)
    (herr : eng.connect mp = Except.error m ∨
      ∃ h, eng.connect mp = Except.ok h ∧
        attachAll eng h (sp.filter (fun q => decide (q.1 ≠ mainKey)))
          = Except.error m) :
    openConnection eng conn
      = ({ conn with handle := none, state := ConnState.fail },
          Except.error (PyExn.failedToConnect m)) := by
  rcases herr with hc | ⟨h, hc, ha⟩
  · simp [openConnection, hstate, hparse, hmain, hc]
  · simp only [ne_eq, decide_not] at ha
    simp [openConnection, hstate, hparse, hmain, hc, ha]

/-- Witness for C2 at a concrete connection whose engine refuses the primary
connect. -/
theorem open_engine_error_sets_fail_witness :
    ((mkConn "main=x.db".toList).state ≠ ConnState.opened ∧
      parseSchemaPaths (mkConn "main=x.db".toList).credentials
        = Except.ok [("main".toList, "x.db".toList)] ∧
      dictLookup mainKey [("main".toList, "x.db".toList)] = some "x.db".toList ∧
      failEngine.connect "x.db".toList
        = Except.error "unable to open database file".toList) ∧
    openConnection failEngine (mkConn "main=x.db".toList)
      = ({ mkConn "main=x.db".toList with
            handle := none, state := ConnState.fail },
          Except.error
            (PyExn.failedToConnect "unable to open database file".toList)) :=
  ⟨⟨by decide, rfl, rfl, rfl⟩,
    open_engine_error_sets_fail failEngine (mkConn "main=x.db".toList)
      [("main".toList, "x.db".toList)] "x.db".toList
      "unable to open database file".toList (by decide) rfl rfl (Or.inl rfl)⟩

/-- `splitOn` leaves a string without the separator whole. -/
theorem splitOn_not_mem (sep : Char) : ∀ (s : Str), sep ∉ s →
    splitOn sep s = [s]
  | [], _ => rfl
  | c :: rest, h => by
      simp only [List.mem_cons, not_or] at h
      have hc : c ≠ sep := fun hh => h.1 hh.symm
      simp [splitOn, splitOn_not_mem sep rest h.2, hc]

/-- `splitOn` never returns the empty list. -/
theorem splitOn_ne_nil (sep : Char) (s : Str) : splitOn sep s ≠ [] := by
  cases s with
  | nil => simp [splitOn]
  | cons c rest =>
    cases h : splitOn sep rest with
    | nil => simp [splitOn, h]
    | cons piece pieces =>
      by_cases hc : c = sep <;> simp [splitOn, h, hc]

/-- Splitting at the first separator occurrence after a clean piece. -/
theorem splitOn_append (sep : Char) : ∀ (s t : Str), sep ∉ s →
    splitOn sep (s ++ sep :: t) = s :: splitOn sep t
  | [], t, _ => by
      obtain ⟨piece, pieces, hp⟩ : ∃ a l, splitOn sep t = a :: l := by
        cases h : splitOn sep t with
        | nil => exact absurd h (splitOn_ne_nil sep t)
        | cons a l => exact ⟨a, l, rfl⟩
      simp [splitOn, hp]
  | c :: s, t, h => by
      simp only [List.mem_cons, not_or] at h
      have hc : c ≠ sep := fun hh => h.1 hh.symm
      simp [splitOn, splitOn_append sep s t h.2, hc]

/-- `splitFirst` splits a clean name from the rest at the first separator. -/
theorem splitFirst_append (sep : Char) : ∀ (n p : Str), sep ∉ n →
    splitFirst sep (n ++ sep :: p) = some (n, p)
  | [], p, _ => by simp [splitFirst]
  | c :: n, p, h => by
      simp only [List.mem_cons, not_or] at h
      have hc : c ≠ sep := fun hh => h.1 hh.symm
      simp [splitFirst, splitFirst_append sep n p h.2, hc]

/-- A single `name=path` entry contains no `;` when neither part does. -/
theorem semi_not_mem_entry (n p : Str) (h1 : ';' ∉ n) (h2 : ';' ∉ p) :
    (';' : Char) ∉ n ++ '=' :: p := by
  intro hm
  rcases List.mem_append.1 hm with hn | hc
  · exact h1 hn
  · rcases List.mem_cons.1 hc with he | hp
    · exact absurd he (by decide)
    · exact h2 hp

/-- Splitting a joined configuration on `;` recovers the entries. -/
theorem splitOn_joinEntries : ∀ (ps : List (Str × Str)),
    (∀ q ∈ ps, ';' ∉ q.1 ∧ ';' ∉ q.2) → ps ≠ [] →
    splitOn ';' (joinEntries ps) = ps.map (fun q => q.1 ++ '=' :: q.2)
  | [], _, hne => absurd rfl hne
  | [q], hwf, _ => by
      have hq := hwf q (by simp)
      simpa [joinEntries] using
        splitOn_not_mem ';' _ (semi_not_mem_entry q.1 q.2 hq.1 hq.2)
  | q :: q' :: rest, hwf, _ => by
      have hq := hwf q (by simp)
      have happ : joinEntries (q :: q' :: rest)
          = (q.1 ++ '=' :: q.2) ++ ';' :: joinEntries (q' :: rest) := by
        simp [joinEntries, List.append_assoc]
      rw [happ,
        splitOn_append ';' _ _ (semi_not_mem_entry q.1 q.2 hq.1 hq.2),
        splitOn_joinEntries (q' :: rest)
          (fun r hr => hwf r (List.mem_cons_of_mem q hr)) (by simp)]
      rfl

/-- The entry loop over well-formed joined entries builds the dict by
repeated insertion. -/
theorem parseEntries_map : ∀ (ps : List (Str × Str)) (d : Dict),
    (∀ q ∈ ps, '=' ∉ q.1) →
    parseEntries (ps.map (fun q => q.1 ++ '=' :: q.2)) d
      = Except.ok (ps.foldl (fun d q => dictInsert q.1 q.2 d) d)
  | [], _, _ => rfl
  | q :: rest, d, hwf => by
      have hq : splitFirst '=' (q.1 ++ '=' :: q.2) = some (q.1, q.2) :=
        splitFirst_append '=' q.1 q.2 (hwf q (by simp))
      simp only [List.map_cons, parseEntries, hq]
      exact parseEntries_map rest _ (fun r hr => hwf r (List.mem_cons_of_mem q hr))

/-- Inserting a fresh key appends it. -/
theorem dictInsert_fresh (k v : Str) : ∀ (d : Dict), k ∉ d.map Prod.fst →
    dictInsert k v d = d ++ [(k, v)]
  | [], _ => rfl
  | q :: rest, h => by
      simp only [List.map_cons, List.mem_cons, not_or] at h
      have hq : q.1 ≠ k := fun hh => h.1 hh.symm
      simp [dictInsert, hq, dictInsert_fresh k v rest h.2]

/-- Folding insertions of pairwise-distinct fresh keys appends them all. -/
theorem foldl_dictInsert_nodup : ∀ (ps : List (Str × Str)) (d : Dict),
    (ps.map Prod.fst).Nodup →
    (∀ n ∈ ps.map Prod.fst, n ∉ d.map Prod.fst) →
    ps.foldl (fun d q => dictInsert q.1 q.2 d) d = d ++ ps
  | [], d, _, _ => by simp
  | q :: rest, d, hnd, hfresh => by
      simp only [List.map_cons, List.nodup_cons] at hnd
      have h1 : q.1 ∉ d.map Prod.fst := hfresh q.1 (by simp)
      have hfresh' : ∀ n ∈ rest.map Prod.fst, n ∉ (d ++ [q]).map Prod.fst := by
        intro n hn
        simp only [List.map_append, List.mem_append, not_or]
        refine ⟨hfresh n (by simp [hn]), ?_⟩
        simp only [List.map_cons, List.map_nil, List.mem_singleton]
        intro he
        exact hnd.1 (he ▸ hn)
      calc (q :: rest).foldl (fun d q => dictInsert q.1 q.2 d) d
          = rest.foldl (fun d q => dictInsert q.1 q.2 d) (dictInsert q.1 q.2 d) :=
            rfl
        _ = rest.foldl (fun d q => dictInsert q.1 q.2 d) (d ++ [q]) := by
            rw [dictInsert_fresh q.1 q.2 d h1]
        _ = (d ++ [q]) ++ rest := foldl_dictInsert_nodup rest (d ++ [q]) hnd.2 hfresh'
        _ = d ++ q :: rest := by simp

/-- Lookup in a dict with distinct keys finds a member binding. -/
theorem dictLookup_of_mem_nodup : ∀ (ps : Dict) (k v : Str),
    (ps.map Prod.fst).Nodup → (k, v) ∈ ps → dictLookup k ps = some v
  | [], k, v, _, hmem => absurd hmem (List.not_mem_nil _)
  | q :: rest, k, v, hnd, hmem => by
      simp only [List.map_cons, List.nodup_cons] at hnd
      rcases List.mem_cons.1 hmem with he | hm
      · rw [← he]
        simp [dictLookup]
      · have hk : k ∈ rest.map Prod.fst :=
          List.mem_map.2 ⟨(k, v), hm, rfl⟩
        have hq : q.1 ≠ k := fun hh => hnd.1 (hh ▸ hk)
        simp [dictLookup, hq, dictLookup_of_mem_nodup rest k v hnd.2 hm]

/-- Lookup after a single Python dict assignment. -/
theorem dictLookup_insert (n k v : Str) : ∀ (d : Dict),
    dictLookup n (dictInsert k v d) = if k = n then some v else dictLookup n d
  | [] => by
      by_cases h : k = n <;> simp [dictInsert, dictLookup, h]
  | q :: rest => by
      by_cases hk : q.1 = k
      · by_cases hn : k = n
        · simp [dictInsert, dictLookup, hk, hn]
        · have hq : q.1 ≠ n := by rw [hk]; exact hn
          simp [dictInsert, dictLookup, hk, hn, hq]
      · by_cases hn : k = n
        · subst hn
          simp [dictInsert, dictLookup, hk, dictLookup_insert k k v rest]
        · simp [dictInsert, dictLookup, hk, hn, dictLookup_insert n k v rest]

/-- Lookup after folding all assignments of the entry loop: the last
assignment of a name wins, falling back to the initial dict. -/
theorem dictLookup_foldl (n : Str) : ∀ (ps : List (Str × Str)) (d : Dict),
    dictLookup n (ps.foldl (fun d q => dictInsert q.1 q.2 d) d)
      = (lastWins n ps).elim (dictLookup n d) some
  | [], d => by simp [lastWins]
  | q :: rest, d => by
      have ih := dictLookup_foldl n rest (dictInsert q.1 q.2 d)
      cases h : lastWins n rest with
      | some v =>
          simp only [List.foldl_cons]
          rw [ih, h]
          simp [lastWins, h]
      | none =>
          simp only [List.foldl_cons]
          rw [ih, h]
          simp only [Option.elim_none]
          rw [dictLookup_insert]
          by_cases hq : q.1 = n <;> simp [lastWins, h, hq]

/-- The last entry of the configuration overrides earlier ones sharing its
name. -/
theorem lastWins_append_single (n : Str) (ps : List (Str × Str)) (q : Str × Str) :
    lastWins n (ps ++ [q]) = if q.1 = n then some q.2 else lastWins n ps := by
  induction ps with
  | nil => by_cases h : q.1 = n <;> simp [lastWins, h]
  | cons r rest ih =>
      by_cases h : q.1 = n
      · simp [lastWins, ih, h]
      · simp only [List.cons_append, lastWins, List.append_eq, ih, if_neg h]

/-- The always-succeeding recording engine attaches every schema. -/
theorem attachAll_recordEngine (h : Str) : ∀ (l : List (Str × Str)),
    attachAll recordEngine h l = Except.ok ()
  | [] => rfl
  | _ :: rest => attachAll_recordEngine h rest

/-- C6: a well-formed configuration (entries joined with `;`, names distinct,
free of `=` and `;`, one of them `main`) parses to exactly its declared
(name, path) pairs — so the key set equals the declared names — and the
value bound to `main` is the declared main path; paths may contain `=`
(only the first `=` of an entry splits) and are preserved whole. -/
theorem parse_wellformed_correct (ps : List (Str × Str)) (mp : Str)
    (hwf : ∀ q ∈ ps, '=' ∉ q.1 ∧ ';' ∉ q.1 ∧ ';' ∉ q.2)
    (hnodup : (ps.map Prod.fst).Nodup)
    (hmain : (mainKey, mp) ∈ ps) :
    parseSchemaPaths (joinEntries ps) = Except.ok ps ∧
      dictLookup mainKey ps = some mp := by
  have hne : ps ≠ [] := by
    rintro rfl
    exact absurd hmain (List.not_mem_nil _)
  have hsplit := splitOn_joinEntries ps
    (fun q hq => ⟨(hwf q hq).2.1, (hwf q hq).2.2⟩) hne
  constructor
  · unfold parseSchemaPaths
    rw [hsplit, parseEntries_map ps [] (fun q hq => (hwf q hq).1),
      foldl_dictInsert_nodup ps [] hnodup (by simp)]
    simp
  · exact dictLookup_of_mem_nodup ps mainKey mp hnodup hmain

/-- Witness for C6 at a concrete two-schema configuration whose main path
contains `=`. -/
theorem parse_wellformed_correct_witness :
    ((∀ q ∈ ([("main".toList, "a=b.db".toList), ("logs".toList, "b.db".toList)] :
          List (Str × Str)), '=' ∉ q.1 ∧ ';' ∉ q.1 ∧ ';' ∉ q.2) ∧
      (([("main".toList, "a=b.db".toList),
          ("logs".toList, "b.db".toList)] : List (Str × Str)).map Prod.fst).Nodup ∧
      (mainKey, "a=b.db".toList) ∈
        ([("main".toList, "a=b.db".toList), ("logs".toList, "b.db".toList)] :
          List (Str × Str))) ∧
    parseSchemaPaths (joinEntries
        [("main".toList, "a=b.db".toList), ("logs".toList, "b.db".toList)])
      = Except.ok [("main".toList, "a=b.db".toList), ("logs".toList, "b.db".toList)] ∧
    dictLookup mainKey
        [("main".toList, "a=b.db".toList), ("logs".toList, "b.db".toList)]
      = some "a=b.db".toList :=
  ⟨⟨by decide, by decide, by decide⟩,
    parse_wellformed_correct
      [("main".toList, "a=b.db".toList), ("logs".toList, "b.db".toList)]
      "a=b.db".toList (by decide) (by decide) (by decide)⟩

/-- A key appears in the keys of an updated dict iff it is the new key or an
existing one. -/
theorem mem_keys_dictInsert (a k v : Str) : ∀ (d : Dict),
    a ∈ (dictInsert k v d).map Prod.fst ↔ a = k ∨ a ∈ d.map Prod.fst
  | [] => by simp [dictInsert]
  | q :: rest => by
      by_cases hq : q.1 = k <;>
        simp [dictInsert, hq, mem_keys_dictInsert a k v rest]
      all_goals tauto

/-- A Python dict assignment keeps the keys distinct. -/
theorem dictInsert_keys_nodup (k v : Str) : ∀ (d : Dict),
    (d.map Prod.fst).Nodup → ((dictInsert k v d).map Prod.fst).Nodup
  | [], _ => by simp [dictInsert]
  | q :: rest, hnd => by
      simp only [List.map_cons, List.nodup_cons] at hnd
      by_cases hq : q.1 = k
      · simp only [dictInsert, if_pos hq, List.map_cons, List.nodup_cons]
        exact ⟨hq ▸ hnd.1, hnd.2⟩
      · simp only [dictInsert, if_neg hq, List.map_cons, List.nodup_cons]
        refine ⟨?_, dictInsert_keys_nodup k v rest hnd.2⟩
        rw [mem_keys_dictInsert]
        push_neg
        exact ⟨hq, hnd.1⟩

/-- The dict built by the entry loop always has distinct keys. -/
theorem foldl_dictInsert_keys_nodup : ∀ (ps : List (Str × Str)) (d : Dict),
    (d.map Prod.fst).Nodup →
    ((ps.foldl (fun d q => dictInsert q.1 q.2 d) d).map Prod.fst).Nodup
  | [], _, h => h
  | q :: rest, d, h =>
      foldl_dictInsert_keys_nodup rest (dictInsert q.1 q.2 d)
        (dictInsert_keys_nodup q.1 q.2 d h)

/-- A successful lookup exhibits a member binding. -/
theorem dictLookup_mem : ∀ (d : Dict) (k v : Str),
    dictLookup k d = some v → (k, v) ∈ d
  | [], _, _, h => by simp [dictLookup] at h
  | q :: rest, k, v, h => by
      by_cases hq : q.1 = k
      · simp only [dictLookup, if_pos hq] at h
        have hv : q.2 = v := Option.some.inj h
        have hqv : q = (k, v) := by
          cases q
          simp_all
        rw [← hqv]
        exact List.mem_cons_self _ _
      · simp only [dictLookup, if_neg hq] at h
        exact List.mem_cons_of_mem _ (dictLookup_mem rest k v h)

/-- A declared schema name always has a last declaration. -/
theorem lastWins_of_mem (n : Str) : ∀ (ps : List (Str × Str)),
    n ∈ ps.map Prod.fst → ∃ v, lastWins n ps = some v
  | [], h => absurd h (by simp)
  | q :: rest, h => by
      cases hr : lastWins n rest with
      | some v => exact ⟨v, by simp [lastWins, hr]⟩
      | none =>
        rw [List.map_cons] at h
        rcases List.mem_cons.1 h with he | hm
        · exact ⟨q.2, by simp [lastWins, hr, he.symm]⟩
        · obtain ⟨v, hv⟩ := lastWins_of_mem n rest hm
          exact ⟨v, by simp [lastWins, hv]⟩

/-- `lastWins` is the path of the last entry declaring the name: the last
element of the paths of the entries filtered to that name. -/
theorem lastWins_eq_getLast (n : Str) : ∀ (ps : List (Str × Str)),
    lastWins n ps = ((ps.filter (fun q => decide (q.1 = n))).map Prod.snd).getLast?
  | [] => rfl
  | q :: rest => by
      have ih := lastWins_eq_getLast n rest
      by_cases hq : q.1 = n
      · have hfil : (q :: rest).filter (fun q => decide (q.1 = n))
            = q :: rest.filter (fun q => decide (q.1 = n)) := by
          simp [List.filter_cons, hq]
        cases hr : lastWins n rest with
        | some v =>
            have hg : ((rest.filter (fun q => decide (q.1 = n))).map Prod.snd).getLast?
                = some v := by rw [← ih]; exact hr
            obtain ⟨b, l2, hl⟩ : ∃ b l2,
                (rest.filter (fun q => decide (q.1 = n))).map Prod.snd = b :: l2 := by
              cases hm : (rest.filter (fun q => decide (q.1 = n))).map Prod.snd with
              | nil => rw [hm] at hg; exact absurd hg (by simp)
              | cons b l2 => exact ⟨b, l2, rfl⟩
            rw [hl] at hg
            rw [hfil, List.map_cons, hl, List.getLast?_cons_cons, hg]
            simp [lastWins, hr]
        | none =>
            have hg : ((rest.filter (fun q => decide (q.1 = n))).map Prod.snd).getLast?
                = none := by rw [← ih]; exact hr
            have hnil : (rest.filter (fun q => decide (q.1 = n))).map Prod.snd = [] :=
              List.getLast?_eq_none_iff.mp hg
            rw [hfil, List.map_cons, hnil,
              show ([q.2] : List Str).getLast? = some q.2 from rfl]
            simp [lastWins, hr, hq]
      · have hfil : (q :: rest).filter (fun q => decide (q.1 = n))
            = rest.filter (fun q => decide (q.1 = n)) := by
          simp [List.filter_cons, hq]
        rw [hfil, ← ih]
        cases hr : lastWins n rest <;> simp [lastWins, hr, hq]

/-- Against the probe engine, the attach loop reaches the probed schema and
reports exactly the path the attach statement was issued with. -/
theorem attachAll_probe (n p h : Str) : ∀ (l : List (Str × Str)),
    (l.map Prod.fst).Nodup → (n, p) ∈ l →
    attachAll (probeEngine n) h l = Except.error p
  | [], _, hm => absurd hm (List.not_mem_nil _)
  | q :: rest, hnd, hm => by
      simp only [List.map_cons, List.nodup_cons] at hnd
      rcases List.mem_cons.1 hm with he | hmem
      · rw [← he]
        have hat : (probeEngine n).attach h p n = Except.error p := by
          simp [probeEngine]
        simp [attachAll, hat]
      · have hq : q.1 ≠ n := by
          intro hh
          exact hnd.1 (by rw [hh]; exact List.mem_map.2 ⟨(n, p), hmem, rfl⟩)
        have hat : (probeEngine n).attach h q.2 q.1 = Except.ok () := by
          simp [probeEngine, hq]
        simp [attachAll, hat, attachAll_probe n p h rest hnd.2 hmem]

/-- C10: for any well-formed configuration in which schema name `n` appears
in more than one entry (at any positions), the parse binds `n` to the path
of the last such entry, and `open()` uses exactly that path for `n`: when
`n` is `main`, the recording engine's handle ends up holding it (the connect
path); when `n` is a secondary schema and `main` is declared, the probe
engine — whose attach fails for schema `n`, carrying the path it was issued
with — makes `open()` surface precisely that last path. -/
theorem parse_duplicate_last_wins (ps : List (Str × Str)) (n : Str)
    (hwf : ∀ q ∈ ps, '=' ∉ q.1 ∧ ';' ∉ q.1 ∧ ';' ∉ q.2)
    (hdup : 2 ≤ (ps.filter (fun q => decide (q.1 = n))).length) :
    ∃ d p, parseSchemaPaths (joinEntries ps) = Except.ok d ∧
      ((ps.filter (fun q => decide (q.1 = n))).map Prod.snd).getLast? = some p ∧
      dictLookup n d = some p ∧
      (n = mainKey →
        (openConnection recordEngine
          { state := ConnState.start, handle := none,
            credentials := joinEntries ps }).1.handle = some p) ∧
      (n ≠ mainKey → mainKey ∈ ps.map Prod.fst →
        (openConnection (probeEngine n)
          { state := ConnState.start, handle := none,
            credentials := joinEntries ps }).2
          = Except.error (PyExn.failedToConnect p)) := by
  have hne : ps ≠ [] := by
    rintro rfl
    simp at hdup
  have hsplit := splitOn_joinEntries ps
    (fun q hq => ⟨(hwf q hq).2.1, (hwf q hq).2.2⟩) hne
  have hparse : parseSchemaPaths (joinEntries ps)
      = Except.ok (ps.foldl (fun d q => dictInsert q.1 q.2 d) []) := by
    unfold parseSchemaPaths
    rw [hsplit, parseEntries_map _ [] (fun q hq => (hwf q hq).1)]
  have hfilne : ps.filter (fun q => decide (q.1 = n)) ≠ [] := by
    intro hh
    rw [hh] at hdup
    simp at hdup
  obtain ⟨p, hp⟩ : ∃ p,
      ((ps.filter (fun q => decide (q.1 = n))).map Prod.snd).getLast? = some p := by
    cases hg : ((ps.filter (fun q => decide (q.1 = n))).map Prod.snd).getLast? with
    | none =>
        have hnil := List.getLast?_eq_none_iff.mp hg
        rw [List.map_eq_nil_iff] at hnil
        exact absurd hnil hfilne
    | some p => exact ⟨p, rfl⟩
  have hlw : lastWins n ps = some p := by
    rw [lastWins_eq_getLast]
    exact hp
  have hlook : dictLookup n (ps.foldl (fun d q => dictInsert q.1 q.2 d) [])
      = some p := by
    rw [dictLookup_foldl, hlw]
    rfl
  refine ⟨_, p, hparse, hp, hlook, ?_, ?_⟩
  · intro hn
    subst hn
    have hc : recordEngine.connect p = Except.ok p := rfl
    simp [openConnection, hparse, hlook, hc, attachAll_recordEngine]
  · intro hn hmainmem
    obtain ⟨mv, hmv⟩ := lastWins_of_mem mainKey ps hmainmem
    have hmp : dictLookup mainKey (ps.foldl (fun d q => dictInsert q.1 q.2 d) [])
        = some mv := by
      rw [dictLookup_foldl, hmv]
      rfl
    have hmem : (n, p) ∈ ps.foldl (fun d q => dictInsert q.1 q.2 d) [] :=
      dictLookup_mem _ n p hlook
    have hnodup : ((ps.foldl (fun d q => dictInsert q.1 q.2 d) []).map
        Prod.fst).Nodup :=
      foldl_dictInsert_keys_nodup ps [] (by simp)
    have hmemf : (n, p) ∈ (ps.foldl (fun d q => dictInsert q.1 q.2 d) []).filter
        (fun q => decide (q.1 ≠ mainKey)) := by
      rw [List.mem_filter]
      exact ⟨hmem, by simp [hn]⟩
    have hnodupf : (((ps.foldl (fun d q => dictInsert q.1 q.2 d) []).filter
        (fun q => decide (q.1 ≠ mainKey))).map Prod.fst).Nodup :=
      hnodup.sublist ((List.filter_sublist _).map Prod.fst)
    have hatt := attachAll_probe n p mv _ hnodupf hmemf
    have hc : (probeEngine n).connect mv = Except.ok mv := rfl
    simp only [ne_eq, decide_not] at hatt
    simp [openConnection, hparse, hmp, hc, hatt]

/-- Witness for C10 at `a=1;a=2;main=m.db`: schema `a` is declared twice in
non-final positions and the parse binds it to `2`, the later path. -/
theorem parse_duplicate_last_wins_witness :
    ((∀ q ∈ dupConfig, '=' ∉ q.1 ∧ ';' ∉ q.1 ∧ ';' ∉ q.2) ∧
      2 ≤ (dupConfig.filter (fun q => decide (q.1 = "a".toList))).length) ∧
    (∃ d p, parseSchemaPaths (joinEntries dupConfig) = Except.ok d ∧
      ((dupConfig.filter (fun q => decide (q.1 = "a".toList))).map
        Prod.snd).getLast? = some p ∧
      dictLookup "a".toList d = some p ∧
      ("a".toList = mainKey →
        (openConnection recordEngine
          { state := ConnState.start, handle := none,
            credentials := joinEntries dupConfig }).1.handle = some p) ∧
      ("a".toList ≠ mainKey → mainKey ∈ dupConfig.map Prod.fst →
        (openConnection (probeEngine "a".toList)
          { state := ConnState.start, handle := none,
            credentials := joinEntries dupConfig }).2
          = Except.error (PyExn.failedToConnect p))) :=
  ⟨⟨by decide, by decide⟩,
    parse_duplicate_last_wins dupConfig "a".toList (by decide) (by decide)⟩

end DbtSqlite
